import Mathlib

/-!
Verification development for `blackbox_model.py` (slowllama): LoRA fine-tuning
with blackbox offload and a manually orchestrated layer-by-layer backward pass.

Tensors are shallowly embedded as functions on `Fin`-indexed coordinates over a
commutative ring (exact arithmetic stands in for floating point).  The autodiff
engine, the blackbox storage manager and the randomness-state service are the
external collaborators named in the spec; they are modelled by explicit
state/oracle parameters where a claim depends on them.
-/

namespace SlowLlama

/-! ## Index helpers for `view` / `reshape` semantics

A row-major reshape of a `[a, b]` axis pair into a single `[a*b]` axis sends
the pair `(k, r)` to the flat index `k*b + r`; the inverse sends `i` to
`(i / b, i % b)`. -/

/-- Flat row-major index of the pair `(k, r)` stays in range. -/
theorem mul_add_lt_of_lt {a b k r : ℕ} (hk : k < a) (hr : r < b) :
    k * b + r < a * b := by
  calc k * b + r < k * b + b := by omega
    _ = (k + 1) * b := by ring
    _ ≤ a * b := Nat.mul_le_mul_right b hk

/-- Major component of a flat row-major index over a `[a, b]` shape. -/
def finDiv {a b : ℕ} (i : Fin (a * b)) : Fin a :=
  ⟨i.val / b, Nat.div_lt_of_lt_mul (lt_of_lt_of_eq i.isLt (Nat.mul_comm a b))⟩

/-- Minor component of a flat row-major index over a `[a, b]` shape. -/
def finMod {a b : ℕ} (i : Fin (a * b)) : Fin b :=
  ⟨i.val % b, Nat.mod_lt _ (by
    rcases Nat.eq_zero_or_pos b with hb | hb
    · exact absurd i.isLt (by simp [hb])
    · exact hb)⟩

/-- Row-major pairing: the flat index of `(k, r)`. -/
def finPair {a b : ℕ} (k : Fin a) (r : Fin b) : Fin (a * b) :=
  ⟨k.val * b + r.val, mul_add_lt_of_lt k.isLt r.isLt⟩

theorem finDiv_finPair {a b : ℕ} (k : Fin a) (r : Fin b) :
    finDiv (finPair k r) = k := by
  apply Fin.ext
  have hb : 0 < b := Nat.pos_of_ne_zero (by rintro rfl; exact absurd r.isLt (by simp))
  simp only [finDiv, finPair]
  rw [Nat.mul_comm k.val b, Nat.mul_add_div hb, Nat.div_eq_of_lt r.isLt]
  simp

/-! ## `repeat_kv` (source lines 97–106)

`repeat_kv(x, n_rep)` takes `x : [bs, slen, n_kv_heads, head_dim]` and returns
`x[:, :, :, None, :].expand(bs, slen, n_kv_heads, n_rep, head_dim)
 .reshape(bs, slen, n_kv_heads * n_rep, head_dim)`.
The `n_rep == 1` early return in the source yields the same tensor pointwise
as the general branch (flat head index `h / 1 = h`), so the general branch is
the embedded semantics. -/

/-- Broadcast of `x[:, :, :, None, :]` along a fresh repetition axis
(`expand` semantics: the new axis reads the same underlying element). -/
def expandKV {α : Type} {bs sl kv hd : ℕ} (nr : ℕ)
    (x : Fin bs → Fin sl → Fin kv → Fin hd → α) :
    Fin bs → Fin sl → Fin kv → Fin nr → Fin hd → α :=
  fun b s k _ d => x b s k d

/-- Row-major merge of the `[kv, nr]` axis pair into one `[kv*nr]` axis
(`reshape` semantics). -/
def reshapeKV {α : Type} {bs sl kv nr hd : ℕ}
    (y : Fin bs → Fin sl → Fin kv → Fin nr → Fin hd → α) :
    Fin bs → Fin sl → Fin (kv * nr) → Fin hd → α :=
  fun b s h d => y b s (finDiv h) (finMod h) d

/-- Source `repeat_kv`: expand then reshape. -/
def repeat_kv {α : Type} {bs sl kv hd : ℕ} (nr : ℕ)
    (x : Fin bs → Fin sl → Fin kv → Fin hd → α) :
    Fin bs → Fin sl → Fin (kv * nr) → Fin hd → α :=
  reshapeKV (expandKV nr x)

/-! ## LoRA adapter (source lines 227–243)

`A` is the down-projection `[rank, in]`, `B` the up-projection `[out, rank]`;
construction zero-initialises `B` (`nn.init.zeros_`).  `nn.Dropout` is
modelled, as usual, as elementwise multiplication by a mask drawn by the
randomness collaborator; the mask is a parameter here. -/

structure LoRAmod (α : Type) (inD rank outD : ℕ) where
  A : Matrix (Fin rank) (Fin inD) α
  B : Matrix (Fin outD) (Fin rank) α
  scale : α

variable {α : Type} [CommRing α]

/-- LoRA construction: `A` keeps its random initialisation, `B` is zeroed
(`nn.init.zeros_(self.B.weight)`), `scale = alpha / rank`. -/
def loraInit {inD rank : ℕ} (outD : ℕ) (A : Matrix (Fin rank) (Fin inD) α)
    (scale : α) : LoRAmod α inD rank outD :=
  ⟨A, 0, scale⟩

/-- LoRA forward: `self.dropout(self.B(self.A(x))) * self.scale`. -/
def LoRAmod.fwd {inD rank outD : ℕ} (L : LoRAmod α inD rank outD)
    (mask : Fin outD → α) (x : Fin inD → α) : Fin outD → α :=
  fun i => mask i * (L.B.mulVec (L.A.mulVec x)) i * L.scale

/-- LoRA `expanded`: `self.B.weight.mm(self.A.weight) * self.scale`. -/
def LoRAmod.expanded {inD rank outD : ℕ} (L : LoRAmod α inD rank outD) :
    Matrix (Fin outD) (Fin inD) α :=
  fun i j => (∑ k, L.B i k * L.A k j) * L.scale

/-! ## Feed-forward hidden width (source lines 189–198, 211–217)

`TransformerBlock` passes `hidden_dim = 4 * args.dim`; `FeedForward.__init__`
then computes `int(2 * hidden_dim / 3)`, optionally `int(multiplier * hidden)`,
and `multiple_of * ((hidden + multiple_of - 1) // multiple_of)`. -/

/-- Python `int()` on a rational: truncation toward zero. -/
def pyInt (q : ℚ) : ℤ := if 0 ≤ q then ⌊q⌋ else ⌈q⌉

/-- Hidden width before the multiple-of rounding: `int(2 * hidden_dim / 3)`
followed by the optional `int(ffn_dim_multiplier * hidden_dim)`. -/
def ffnPreRound (h0 : ℕ) (fm : Option ℚ) : ℤ :=
  let h1 : ℤ := pyInt ((2 * h0 : ℚ) / 3)
  match fm with
  | none => h1
  | some q => pyInt (q * (h1 : ℚ))

/-- Full `FeedForward` hidden width: round the pre-width up with
`multiple_of * ((hidden_dim + multiple_of - 1) // multiple_of)`
(Python `//` is floor division, `Int.fdiv`). -/
def feedForwardHidden (h0 : ℕ) (mo : ℕ) (fm : Option ℚ) : ℤ :=
  (mo : ℤ) * ((ffnPreRound h0 fm + mo - 1).fdiv mo)

/-- Hidden width as instantiated by `TransformerBlock`: `hidden_dim = 4*dim`. -/
def blockHidden (dim mo : ℕ) (fm : Option ℚ) : ℤ :=
  feedForwardHidden (4 * dim) mo fm

/-! ## Claims C4, C5, C6 -/

/-- C4: immediately after construction, `LoRA.forward` returns an all-zero
tensor for every input `x` (and every dropout mask the randomness collaborator
may draw), and `LoRA.expanded` returns the all-zero `[out, in]` matrix, because
the up-projection `B` is zero-initialised while `A` is arbitrary. -/
theorem lora_zero_init {inD rank outD : ℕ}
    (A : Matrix (Fin rank) (Fin inD) α) (scale : α)
    (mask : Fin outD → α) (x : Fin inD → α) :
    (loraInit outD A scale).fwd mask x = 0 ∧
    (loraInit outD A scale).expanded = 0 := by
  constructor
  · funext i
    simp [loraInit, LoRAmod.fwd, Matrix.zero_mulVec]
  · funext i j
    simp [loraInit, LoRAmod.expanded]

/-- C5: the feed-forward hidden width starts from `int(2 * (4*dim) / 3)`,
optionally applies the truncated fractional multiplier, and rounds the result
up to the nearest multiple of `multiple_of`; for `dim = 4096`,
`multiple_of = 256`, no multiplier, it equals `11008`.  The second conjunct is
the round-up characterisation: the result is the least multiple of
`multiple_of` that is at least the pre-rounding width. -/
theorem ffn_hidden_width :
    blockHidden 4096 256 none = 11008 ∧
    ∀ (dim mo : ℕ) (fm : Option ℚ), 0 < mo →
      ((mo : ℤ) ∣ blockHidden dim mo fm ∧
       ffnPreRound (4 * dim) fm ≤ blockHidden dim mo fm ∧
       blockHidden dim mo fm < ffnPreRound (4 * dim) fm + mo) := by
  constructor
  · show (256 : ℤ) * ((ffnPreRound (4 * 4096) none + 256 - 1).fdiv 256) = 11008
    have hpre : ffnPreRound (4 * 4096) none = 10922 := by
      unfold ffnPreRound pyInt
      rw [if_pos (by norm_num)]
      have h : ((2 * (4 * 4096 : ℕ) : ℚ) / 3) = ((32768 : ℤ) : ℚ) / ((3 : ℕ) : ℚ) := by
        norm_num
      rw [h, Rat.floor_intCast_div_natCast]
      decide
    rw [hpre]
    decide
  · intro dim mo fm hmo
    have hmoZ : (0 : ℤ) < (mo : ℤ) := by exact_mod_cast hmo
    unfold blockHidden feedForwardHidden
    set p := ffnPreRound (4 * dim) fm with hp
    have hfd : (p + mo - 1).fdiv mo = (p + mo - 1) / mo :=
      Int.fdiv_eq_ediv _ (le_of_lt hmoZ)
    rw [hfd]
    have hmod := Int.emod_nonneg (p + mo - 1) (ne_of_gt hmoZ)
    have hmod2 := Int.emod_lt_of_pos (p + mo - 1) hmoZ
    have hdm := Int.ediv_add_emod (p + mo - 1) (mo : ℤ)
    refine ⟨dvd_mul_right _ _, ?_, ?_⟩
    · linarith
    · linarith

/-- Witness for C5: the hypothesis `0 < multiple_of` holds at `256`, and the
round-up characterisation instantiates at the spec's concrete configuration. -/
theorem ffn_hidden_width_witness :
    0 < 256 ∧
    ((256 : ℤ) ∣ blockHidden 4096 256 none ∧
     ffnPreRound (4 * 4096) none ≤ blockHidden 4096 256 none ∧
     blockHidden 4096 256 none < ffnPreRound (4 * 4096) none + 256) :=
  ⟨by decide, ffn_hidden_width.2 4096 256 none (by decide)⟩

/-- C6: `repeat_kv` maps a `[bs, slen, n_kv_heads, head_dim]` tensor to a
`[bs, slen, n_kv_heads * n_rep, head_dim]` tensor (the shape is forced by the
type); the slice at merged head index `h` equals the input slice at head
`h / n_rep`, and each key/value head is duplicated contiguously `n_rep`
times (`finPair k r = k * n_rep + r` reads back head `k`), preserving head
order. -/
theorem repeat_kv_slices {A : Type} {bs sl kv hd : ℕ} (nr : ℕ) (_hnr : 1 ≤ nr)
    (x : Fin bs → Fin sl → Fin kv → Fin hd → A) :
    (∀ (b : Fin bs) (s : Fin sl) (h : Fin (kv * nr)) (d : Fin hd),
        repeat_kv nr x b s h d = x b s (finDiv h) d) ∧
    (∀ (b : Fin bs) (s : Fin sl) (k : Fin kv) (r : Fin nr) (d : Fin hd),
        repeat_kv nr x b s (finPair k r) d = x b s k d) := by
  constructor
  · intro b s h d
    rfl
  · intro b s k r d
    show x b s (finDiv (finPair k r)) d = x b s k d
    rw [finDiv_finPair]

/-- Concrete key/value tensor for the C6 witness: head `k` holds value `k`. -/
def kvEx : Fin 1 → Fin 1 → Fin 2 → Fin 1 → ℕ := fun _ _ k _ => k.val

/-- Witness for C6: at `n_rep = 2` the hypothesis `1 ≤ n_rep` holds, and
merged head `1*2+1 = 3` of the repeated tensor reads original head `1`. -/
theorem repeat_kv_slices_witness :
    1 ≤ 2 ∧ repeat_kv 2 kvEx 0 0 (finPair (1 : Fin 2) (1 : Fin 2)) 0 = kvEx 0 0 1 0 :=
  ⟨by decide, (repeat_kv_slices 2 (by decide) kvEx).2 0 0 1 1 0⟩

/-! ## Cross-entropy with `ignore_index = -1` (call sites: source lines 297, 358)

`F.cross_entropy(logits.view(-1, V), targets.view(-1), ignore_index=-1)` is a
call into the autodiff-engine collaborator: mean over the positions whose
target id is not the sentinel of the negative log-softmax of the target
logit.  Both the ordinary forward path (line 297) and the manual path
(line 358) invoke it with identical arguments.  Targets are Python ints,
embedded as `ℤ`; a valid non-ignored target lies in `[0, V)`, and out-of-range
ids are mapped to an arbitrary in-range index (the claim only concerns
positions carrying the sentinel). -/

/-- Sentinel target id excluded from the loss. -/
def ignoreId : ℤ := -1

/-- In-range index for a target id (junk wrap-around for invalid ids). -/
def tgtIdx (V : ℕ) (t : ℤ) : Fin (V + 1) :=
  ⟨t.toNat % (V + 1), Nat.mod_lt _ (Nat.succ_pos V)⟩

/-- Negative log-softmax of the target coordinate of one logits row. -/
noncomputable def nllTerm {V : ℕ} (l : Fin (V + 1) → ℝ) (t : ℤ) : ℝ :=
  Real.log (∑ j, Real.exp (l j)) - l (tgtIdx V t)

/-- Cross-entropy with mean reduction over the non-ignored positions. -/
noncomputable def crossEntropy {N V : ℕ} (logits : Fin N → Fin (V + 1) → ℝ)
    (targets : Fin N → ℤ) : ℝ :=
  (∑ i, if targets i ≠ ignoreId then nllTerm (logits i) (targets i) else 0) /
    (Finset.univ.filter (fun i => targets i ≠ ignoreId)).card

/-- C7: the loss ignores every position whose target id is the sentinel `-1`:
two logits tensors that agree on all non-ignored positions give the same
loss.  In particular the loss, as a function of the logits at an ignored
position, is constant, so the gradient contribution of that position is zero
and the gradients at all other positions are unchanged when those logits
vary; both the ordinary path and the manual path compute this same
function. -/
theorem cross_entropy_ignore_masking {N V : ℕ}
    (logits logits' : Fin N → Fin (V + 1) → ℝ) (targets : Fin N → ℤ)
    (hagree : ∀ i, targets i ≠ ignoreId → logits i = logits' i) :
    crossEntropy logits targets = crossEntropy logits' targets := by
  unfold crossEntropy
  congr 1
  apply Finset.sum_congr rfl
  intro i _
  by_cases hi : targets i = ignoreId
  · simp [hi]
  · rw [if_pos hi, if_pos hi, hagree i hi]

/-- Logits rows used by the C7 witness. -/
def logitsEx : Fin 2 → Fin 2 → ℝ := fun i j => if i = 0 then j.val else 5

/-- Second logits tensor for the C7 witness: differs from `logitsEx` exactly
on row 1, whose target is the sentinel. -/
def logitsEx' : Fin 2 → Fin 2 → ℝ := fun i j => if i = 0 then j.val else 9

/-- Targets for the C7 witness: position 0 is a real target, position 1
carries the sentinel `-1`. -/
def targetsEx : Fin 2 → ℤ := fun i => if i = 0 then 0 else -1

/-- Witness for C7: the agreement hypothesis holds for the concrete tensors
(they differ only at the ignored position 1), and the loss is unchanged. -/
theorem cross_entropy_ignore_masking_witness :
    (∀ i, targetsEx i ≠ ignoreId → logitsEx i = logitsEx' i) ∧
    crossEntropy logitsEx targetsEx = crossEntropy logitsEx' targetsEx := by
  have hagree : ∀ i, targetsEx i ≠ ignoreId → logitsEx i = logitsEx' i := by
    intro i hi
    fin_cases i
    · funext j
      simp [logitsEx, logitsEx']
    · exact absurd rfl hi
  exact ⟨hagree, cross_entropy_ignore_masking logitsEx logitsEx' targetsEx hagree⟩

/-! ## Attention block (source lines 108–185)

`Attention.forward` with the flash path: `scaled_dot_product_attention` is a
call into the engine collaborator and is a function parameter here, as are the
adapter modules `q_lora`/`v_lora` (opaque callables in the source signature)
and the residual dropout mask.  Head dimension is `2 * hd2` (rotary encoding
pairs adjacent coordinates), and `n_heads = n_kv_heads * n_rep` as enforced by
`self.n_rep = self.n_heads // self.n_kv_heads` with exact division. -/

/-- `view(bsz, seqlen, n, head_dim)` of a flat `[n * head_dim]` axis. -/
def splitHeads {n hd : ℕ} (v : Fin (n * hd) → α) : Fin n → Fin hd → α :=
  fun h d => v (finPair h d)

/-- `transpose(1, 2).contiguous().view(bsz, seqlen, -1)`: merge the head and
per-head axes back into one flat axis. -/
def mergeHeads {n hd : ℕ} (f : Fin n → Fin hd → α) : Fin (n * hd) → α :=
  fun i => f (finDiv i) (finMod i)

/-- Rotation of one head vector by the precomputed angles (source lines
70–95): adjacent coordinate pairs `(v[2j], v[2j+1])` are the real and
imaginary parts; the output interleaves `r*cos - i*sin` at even positions and
`r*sin + i*cos` at odd positions. -/
def ropePair {hd2 : ℕ} (c s : Fin hd2 → α) (v : Fin (2 * hd2) → α) :
    Fin (2 * hd2) → α :=
  fun k =>
    let j : Fin hd2 := ⟨k.val / 2, Nat.div_lt_of_lt_mul k.isLt⟩
    if k.val % 2 = 0 then
      v ⟨2 * j.val, by have := j.isLt; omega⟩ * c j -
        v ⟨2 * j.val + 1, by have := j.isLt; omega⟩ * s j
    else
      v ⟨2 * j.val, by have := j.isLt; omega⟩ * s j +
        v ⟨2 * j.val + 1, by have := j.isLt; omega⟩ * c j

/-- `apply_rotary_emb` on one tensor (the source applies the same rotation to
`xq` and `xk`); `freqs_cos`/`freqs_sin` are indexed by position and frequency
and broadcast over batch and head. -/
def applyRotaryEmb {bs sl n hd2 : ℕ} (fc fs : Fin sl → Fin hd2 → α)
    (xt : Fin bs → Fin sl → Fin n → Fin (2 * hd2) → α) :
    Fin bs → Fin sl → Fin n → Fin (2 * hd2) → α :=
  fun b s h => ropePair (fc s) (fs s) (xt b s h)

/-- Source `Attention.forward` (lines 139–185, flash path):
project, add the adapter corrections to the query and value projections,
reshape into heads, rotate q/k, repeat k/v heads, batch the heads, run
`scaled_dot_product_attention`, merge heads, apply the output projection and
the residual dropout. -/
def attentionForward {bsz sl nKV nRep hd2 D DO : ℕ}
    (wq : Matrix (Fin (nKV * nRep * (2 * hd2))) (Fin D) α)
    (wk : Matrix (Fin (nKV * (2 * hd2))) (Fin D) α)
    (wv : Matrix (Fin (nKV * (2 * hd2))) (Fin D) α)
    (wo : Matrix (Fin DO) (Fin (nKV * nRep * (2 * hd2))) α)
    (q_lora : (Fin D → α) → Fin (nKV * nRep * (2 * hd2)) → α)
    (v_lora : (Fin D → α) → Fin (nKV * (2 * hd2)) → α)
    (fc fs : Fin sl → Fin hd2 → α)
    (sdpa : (Fin bsz → Fin (nKV * nRep) → Fin sl → Fin (2 * hd2) → α) →
            (Fin bsz → Fin (nKV * nRep) → Fin sl → Fin (2 * hd2) → α) →
            (Fin bsz → Fin (nKV * nRep) → Fin sl → Fin (2 * hd2) → α) →
            (Fin bsz → Fin (nKV * nRep) → Fin sl → Fin (2 * hd2) → α))
    (residMask : Fin bsz → Fin sl → Fin DO → α)
    (x : Fin bsz → Fin sl → Fin D → α) : Fin bsz → Fin sl → Fin DO → α :=
  let xq := fun b s => wq.mulVec (x b s) + q_lora (x b s)
  let xk := fun b s => wk.mulVec (x b s)
  let xv := fun b s => wv.mulVec (x b s) + v_lora (x b s)
  let xqh := fun b s => splitHeads (xq b s)
  let xkh := fun b s => splitHeads (xk b s)
  let xvh := fun b s => splitHeads (xv b s)
  let xqr := applyRotaryEmb fc fs xqh
  let xkr := applyRotaryEmb fc fs xkh
  let xkrep := repeat_kv nRep xkr
  let xvrep := repeat_kv nRep xvh
  let att := sdpa (fun b h s d => xqr b s h d) (fun b h s d => xkrep b s h d)
    (fun b h s d => xvrep b s h d)
  let merged := fun b s => mergeHeads (fun h d => att b h s d)
  fun b s i => residMask b s i * wo.mulVec (merged b s) i

/-- The attention pipeline downstream of the three projections, written as a
standalone computation of the flat query/key/value tensors.  It takes no
adapter argument anywhere, and the output projection `wo` inside it is applied
with no adapter correction. -/
def attentionCore {bsz sl nKV nRep hd2 DO : ℕ}
    (wo : Matrix (Fin DO) (Fin (nKV * nRep * (2 * hd2))) α)
    (fc fs : Fin sl → Fin hd2 → α)
    (sdpa : (Fin bsz → Fin (nKV * nRep) → Fin sl → Fin (2 * hd2) → α) →
            (Fin bsz → Fin (nKV * nRep) → Fin sl → Fin (2 * hd2) → α) →
            (Fin bsz → Fin (nKV * nRep) → Fin sl → Fin (2 * hd2) → α) →
            (Fin bsz → Fin (nKV * nRep) → Fin sl → Fin (2 * hd2) → α))
    (residMask : Fin bsz → Fin sl → Fin DO → α)
    (q0 : Fin bsz → Fin sl → Fin (nKV * nRep * (2 * hd2)) → α)
    (k0 : Fin bsz → Fin sl → Fin (nKV * (2 * hd2)) → α)
    (v0 : Fin bsz → Fin sl → Fin (nKV * (2 * hd2)) → α) :
    Fin bsz → Fin sl → Fin DO → α :=
  let xqh := fun b s => splitHeads (q0 b s)
  let xkh := fun b s => splitHeads (k0 b s)
  let xvh := fun b s => splitHeads (v0 b s)
  let xqr := applyRotaryEmb fc fs xqh
  let xkr := applyRotaryEmb fc fs xkh
  let xkrep := repeat_kv nRep xkr
  let xvrep := repeat_kv nRep xvh
  let att := sdpa (fun b h s d => xqr b s h d) (fun b h s d => xkrep b s h d)
    (fun b h s d => xvrep b s h d)
  let merged := fun b s => mergeHeads (fun h d => att b h s d)
  fun b s i => residMask b s i * wo.mulVec (merged b s) i

/-- C8: inside the attention block the query projection result is
`wq(x) + q_lora(x)` and the value projection result is `wv(x) + v_lora(x)`
(the additive corrections are applied to the flat projections, before the
reshape into heads), while the key projection stays `wk(x)` and the whole
downstream pipeline — including the output projection `wo` — is the
adapter-free `attentionCore`. -/
theorem attention_adapter_placement {bsz sl nKV nRep hd2 D DO : ℕ}
    (wq : Matrix (Fin (nKV * nRep * (2 * hd2))) (Fin D) α)
    (wk : Matrix (Fin (nKV * (2 * hd2))) (Fin D) α)
    (wv : Matrix (Fin (nKV * (2 * hd2))) (Fin D) α)
    (wo : Matrix (Fin DO) (Fin (nKV * nRep * (2 * hd2))) α)
    (q_lora : (Fin D → α) → Fin (nKV * nRep * (2 * hd2)) → α)
    (v_lora : (Fin D → α) → Fin (nKV * (2 * hd2)) → α)
    (fc fs : Fin sl → Fin hd2 → α)
    (sdpa : (Fin bsz → Fin (nKV * nRep) → Fin sl → Fin (2 * hd2) → α) →
            (Fin bsz → Fin (nKV * nRep) → Fin sl → Fin (2 * hd2) → α) →
            (Fin bsz → Fin (nKV * nRep) → Fin sl → Fin (2 * hd2) → α) →
            (Fin bsz → Fin (nKV * nRep) → Fin sl → Fin (2 * hd2) → α))
    (residMask : Fin bsz → Fin sl → Fin DO → α)
    (x : Fin bsz → Fin sl → Fin D → α) :
    attentionForward wq wk wv wo q_lora v_lora fc fs sdpa residMask x =
      attentionCore wo fc fs sdpa residMask
        (fun b s => wq.mulVec (x b s) + q_lora (x b s))
        (fun b s => wk.mulVec (x b s))
        (fun b s => wv.mulVec (x b s) + v_lora (x b s)) := rfl

/-! ## Orchestration model (source lines 245–373)

The spec (§1) treats the network-architecture layer modules and the autodiff
engine as external collaborators, so a transformer layer is modelled as an
rng-consuming differentiable function given by its forward computation and the
reverse-mode vector–Jacobian products the engine supplies for it: gradient to
the layer input, gradient to the layer's LoRA adapters (whose parameters are
not among the blackbox module's own parameters and always require gradients),
and gradient to the layer's frozen base weights.  The rng state is the single
global randomness resource of the device (spec §5): each forward consumes it
and returns the advanced state. -/

structure DiffFn (R V G W : Type) where
  fwd : R → V → V × R
  vjpIn : R → V → V → V
  vjpAd : R → V → V → G
  vjpW : R → V → V → W

/-- Resident module with a weight (the final `RMSNorm` and the output
projection): forward plus the engine's vector–Jacobian products with respect
to the input and the weight. -/
structure ParamFn (W X Y : Type) where
  fwd : W → X → Y
  vjpIn : W → X → Y → X
  vjpW : W → X → Y → W

/-- The model container (source `Transformer.__init__`): the layer sequence,
the embedding (tokens to a value; lookup consumes no randomness), the
post-embedding dropout, the resident final norm and output projection with
their weights, and the loss together with its gradient with respect to the
logits (`F.cross_entropy` and its reverse pass, supplied by the engine). -/
structure Model (R V L G WL NW OW Tok T S : Type) where
  layers : List (DiffFn R V G WL)
  dropFwd : R → V → V × R
  norm : ParamFn NW V V
  normW : NW
  output : ParamFn OW V L
  outW : OW
  lossF : T → L → S × L
  embed : Tok → V

/-- The forward traversal shared verbatim by the resident path (lines
290–291) and the manual path (lines 342–344): thread the rng state through
the layers in order.  The returned trace holds, per layer, the rng state in
effect immediately before the layer ran (what `save_rng_state` records in the
manual path) and the layer's input (what the blackbox wrapper caches for
`load_input`). -/
def forwardSweep {R V G W : Type} :
    List (DiffFn R V G W) → R → V → List (R × V) × V × R
  | [], r, v => ([], v, r)
  | l :: rest, r, v =>
    let o := l.fwd r v
    let t := forwardSweep rest o.2 o.1
    ((r, v) :: t.1, t.2)

/-- Built-in reverse-mode differentiation over the layer chain (the engine
collaborator's semantics on the resident graph): the gradient flows from the
last layer's output backwards; each layer contributes its adapter gradient
and passes the input gradient on. -/
def chainGrads {R V G W : Type} :
    List (DiffFn R V G W) → List (R × V) → V → List G × V
  | [], _, g => ([], g)
  | _ :: _, [], g => ([], g)
  | l :: rest, p :: tr, g =>
    let q := chainGrads rest tr g
    (l.vjpAd p.1 p.2 q.2 :: q.1, l.vjpIn p.1 p.2 q.2)

/-- Source `backprop_w_lora` (lines 305–324): load the blackbox module, set
`requires_grad = False` on every one of its parameters, load the cached
input, mark it as a gradient root if it is floating point, re-run the forward
and call backward with the incoming output gradient.  The engine then
produces a gradient for exactly the tensors that require one: the input (when
marked), the adapters passed in through `*args` (their parameters are not
among the module's parameters, hence never frozen), and the module's own
weights only if they still required gradients — which the freeze just turned
off. -/
def backpropWLora {X Y G W : Type} (vjpIn : X → Y → X) (vjpAd : X → Y → G)
    (vjpW : X → Y → W) (inputIsFloat : Bool) (input : X) (outputGrad : Y) :
    Option X × G × Option W :=
  let requiresGradW := false
  ( if inputIsFloat then some (vjpIn input outputGrad) else none
  , vjpAd input outputGrad
  , if requiresGradW then some (vjpW input outputGrad) else none )

/-- The per-layer replay loop of `manual_loop` (lines 369–371), iterating over
the REVERSED layer, rng and cache lists: restore the layer's saved rng state,
then `backprop_w_lora` recomputes the layer forward from the cached input
under that state and backpropagates the carried gradient, which is replaced
by the gradient with respect to the reloaded input.  Layer activations are
floating point, so the input is always marked as a root.  Returns the adapter
gradients and frozen-weight gradients in processing order plus the final
carried gradient. -/
def manualReplay {R V G W : Type} :
    List (DiffFn R V G W) → List (R × V) → V → List G × List (Option W) × V
  | [], _, g => ([], [], g)
  | _ :: _, [], g => ([], [], g)
  | l :: rest, p :: tr, g =>
    let bp := backpropWLora (l.vjpIn p.1) (l.vjpAd p.1) (l.vjpW p.1) true p.2 g
    let q := manualReplay rest tr (bp.1.getD p.2)
    (bp.2.1 :: q.1, bp.2.2 :: q.2.1, q.2.2)

/-- Requires-grad flag of the final normalization's weight during the manual
path.  Line 270 of the source executes `self.norm.requires_grad = False`, but
`nn.Module.__setattr__` stores a non-parameter value as a plain object
attribute: the flag of the parameter tensor `norm.weight` is untouched and
remains `True` (parameters require gradients by default), so the backward
call on `norm_out2` (line 365) accumulates a gradient on it. -/
def normParamRequiresGrad : Bool := true

/-- Result of one manual forward+backward invocation: the returned logits and
scalar loss, and the gradients accumulated on the adapters, on the layers'
frozen weights, on the final-norm weight and on the output-projection
weight. -/
structure ManualOut (V L G WL NW OW S : Type) where
  logits : L
  loss : S
  adapterGrads : List G
  layerWGrads : List (Option WL)
  normWGrad : Option NW
  outWGrad : Option OW

/-- Source `Transformer.manual_loop` (lines 327–373): embed (detached), apply
the embedding dropout, run the forward sweep saving rng states and letting
the blackbox wrappers cache layer inputs, detach the last layer's output, run
the resident tail (norm, output projection, cross-entropy) with detach points
after each stage, backpropagate the loss to the logits leaf, push the logits
gradient through the reloaded output projection with `backprop_w_lora`, push
the result through a recomputation of the norm — whose weight still requires
a gradient, see `normParamRequiresGrad` — and finally replay the layers in
reverse with `manualReplay`.  Detaching never changes a value, so the values
threaded here are the same expressions as in the resident path. -/
def manualLoop {R V L G WL NW OW Tok T S : Type}
    (M : Model R V L G WL NW OW Tok T S) (tok : Tok) (tgt : T) (r0 : R) :
    ManualOut V L G WL NW OW S :=
  let embd := M.embed tok
  let s0 := M.dropFwd r0 embd
  let sw := forwardSweep M.layers s0.2 s0.1
  let hn := sw.2.1
  let normOut := M.norm.fwd M.normW hn
  let logits := M.output.fwd M.outW normOut
  let lz := M.lossF tgt logits
  let bpOut := backpropWLora (M.output.vjpIn M.outW) (fun _ _ => PUnit.unit)
    (M.output.vjpW M.outW) true normOut lz.2
  let normOutGrad := bpOut.1.getD normOut
  let normWGrad := if normParamRequiresGrad then
    some (M.norm.vjpW M.normW hn normOutGrad) else none
  let lastGrad := M.norm.vjpIn M.normW hn normOutGrad
  let rep := manualReplay M.layers.reverse sw.1.reverse lastGrad
  ⟨logits, lz.1, rep.1.reverse, rep.2.1.reverse, normWGrad, bpOut.2.2⟩

/-- Rng/input trace, final hidden state and final rng of the resident forward
pass (`Transformer.forward`, lines 281–291). -/
def residentStates {R V L G WL NW OW Tok T S : Type}
    (M : Model R V L G WL NW OW Tok T S) (tok : Tok) (r0 : R) :
    List (R × V) × V × R :=
  let s0 := M.dropFwd r0 (M.embed tok)
  forwardSweep M.layers s0.2 s0.1

/-- Resident logits with targets given (lines 292–297): final norm then the
output projection on every position. -/
def residentLogits {R V L G WL NW OW Tok T S : Type}
    (M : Model R V L G WL NW OW Tok T S) (tok : Tok) (r0 : R) : L :=
  M.output.fwd M.outW (M.norm.fwd M.normW (residentStates M tok r0).2.1)

/-- `last_loss` of the resident path with targets (line 297). -/
def residentLoss {R V L G WL NW OW Tok T S : Type}
    (M : Model R V L G WL NW OW Tok T S) (tok : Tok) (tgt : T) (r0 : R) : S :=
  (M.lossF tgt (residentLogits M tok r0)).1

/-- Adapter gradients produced by one resident forward plus built-in backward
pass: the engine backpropagates through the loss, the output projection and
the norm, then down the layer chain. -/
def residentAdapterGrads {R V L G WL NW OW Tok T S : Type}
    (M : Model R V L G WL NW OW Tok T S) (tok : Tok) (tgt : T) (r0 : R) :
    List G :=
  let st := residentStates M tok r0
  let hn := st.2.1
  let normOut := M.norm.fwd M.normW hn
  let logits := M.output.fwd M.outW normOut
  let gL := (M.lossF tgt logits).2
  let gN := M.output.vjpIn M.outW normOut gL
  let gH := M.norm.vjpIn M.normW hn gN
  (chainGrads M.layers st.1 gH).1

/-! ## Equivalence of the manual replay and the resident backward pass -/

theorem forwardSweep_trace_length {R V G W : Type}
    (ls : List (DiffFn R V G W)) : ∀ (r : R) (v : V),
    (forwardSweep ls r v).1.length = ls.length := by
  induction ls with
  | nil => intro r v; rfl
  | cons l rest ih => intro r v; simp [forwardSweep, ih]

theorem manualReplay_append {R V G W : Type} (as : List (DiffFn R V G W)) :
    ∀ (bs : List (DiffFn R V G W)) (ta tb : List (R × V)) (g : V),
      as.length = ta.length →
      manualReplay (as ++ bs) (ta ++ tb) g =
        ((manualReplay as ta g).1 ++
           (manualReplay bs tb (manualReplay as ta g).2.2).1,
         (manualReplay as ta g).2.1 ++
           (manualReplay bs tb (manualReplay as ta g).2.2).2.1,
         (manualReplay bs tb (manualReplay as ta g).2.2).2.2) := by
  induction as with
  | nil =>
    intro bs ta tb g h
    obtain rfl : ta = [] := List.length_eq_zero.mp h.symm
    simp [manualReplay]
  | cons a as' ih =>
    intro bs ta tb g h
    cases ta with
    | nil => simp at h
    | cons p ta' =>
      simp only [List.cons_append, manualReplay, List.append_eq]
      rw [ih bs ta' tb _ (by simpa using h)]

theorem manualReplay_reverse_eq_chain {R V G W : Type}
    (ls : List (DiffFn R V G W)) : ∀ (tr : List (R × V)) (g : V),
      ls.length = tr.length →
      manualReplay ls.reverse tr.reverse g =
        ((chainGrads ls tr g).1.reverse,
         List.replicate ls.length (none : Option W),
         (chainGrads ls tr g).2) := by
  induction ls with
  | nil =>
    intro tr g h
    obtain rfl : tr = [] := List.length_eq_zero.mp h.symm
    simp [manualReplay, chainGrads]
  | cons l rest ih =>
    intro tr g h
    cases tr with
    | nil => simp at h
    | cons p tr' =>
      have hlen : rest.length = tr'.length := by simpa using h
      simp only [List.reverse_cons]
      rw [manualReplay_append rest.reverse [l] tr'.reverse [p] g (by simp [hlen])]
      rw [ih tr' g hlen]
      simp [manualReplay, backpropWLora, chainGrads, List.replicate_succ']

theorem manualReplay_grads {R V G W : Type} (ls : List (DiffFn R V G W))
    (tr : List (R × V)) (g : V) (h : ls.length = tr.length) :
    (manualReplay ls.reverse tr.reverse g).1.reverse = (chainGrads ls tr g).1 := by
  rw [manualReplay_reverse_eq_chain ls tr g h]
  simp

/-- C1: for a fixed model, fixed token/target inputs and a fixed initial
rng state, `manual_loop` computes the same loss as the resident
`Transformer.forward` with targets, and the gradients it accumulates on the
LoRA adapters of every layer equal those produced by one resident forward
plus built-in backward pass.  Both paths consume the rng stream in the same
order (embedding dropout, then each layer), the blackbox caches hold exactly
the per-layer inputs of the sweep, and the replay restores the saved rng
state before each recomputation, so the recomputed layer forwards replicate
the resident ones. -/
theorem manual_loop_matches_resident {R V L G WL NW OW Tok T S : Type}
    (M : Model R V L G WL NW OW Tok T S) (tok : Tok) (tgt : T) (r0 : R) :
    (manualLoop M tok tgt r0).loss = residentLoss M tok tgt r0 ∧
    (manualLoop M tok tgt r0).adapterGrads = residentAdapterGrads M tok tgt r0 := by
  refine ⟨rfl, ?_⟩
  have hlen : M.layers.length = (residentStates M tok r0).1.length :=
    (forwardSweep_trace_length M.layers _ _).symm
  exact manualReplay_grads M.layers (residentStates M tok r0).1 _ hlen

/-! ## C2: gradient state of the base parameters after one manual pass

Concrete one-layer instantiation over `ℤ`: the layer, norm and output act as
simple multiplications with the engine's exact vector–Jacobian products, the
loss is a square.  The input is non-degenerate (all values and gradients are
non-zero). -/

/-- One-layer instantiation (identity layer whose adapter and weight VJPs are
`input * outputGrad`). -/
def exLayer : DiffFn Unit ℤ ℤ ℤ :=
  ⟨fun r v => (v, r), fun _ _ g => g, fun _ x g => x * g, fun _ x g => x * g⟩

/-- Concrete one-layer model used to evaluate `manualLoop`. -/
def exModel : Model Unit ℤ ℤ ℤ ℤ ℤ ℤ Unit Unit ℤ :=
  ⟨[exLayer], fun r v => (v, r),
   ⟨fun w x => w * x, fun w _ g => w * g, fun _ x g => x * g⟩, 1,
   ⟨fun w x => w * x, fun w _ g => w * g, fun _ x g => x * g⟩, 1,
   fun _ l => (l * l, 2 * l), fun _ => 1⟩

/-- C2 is violated by the code at this concrete non-degenerate input: after
one full `manual_loop`, the offloaded layer's frozen weight has no gradient
and the output-projection weight has no gradient (both were frozen inside
`backprop_w_lora`), the layer's adapter gradient is non-zero — but the
final-normalization weight carries the non-zero accumulated gradient
`some 2`, because line 270 (`self.norm.requires_grad = False`) sets a module
attribute instead of the parameter flag (see `normParamRequiresGrad`), while
the claim and the spec require every base-model parameter's gradient to be
absent or zero. -/
theorem manual_loop_norm_weight_grad :
    (manualLoop exModel () () ()).normWGrad = some 2 ∧
    (2 : ℤ) ≠ 0 ∧
    (manualLoop exModel () () ()).layerWGrads = [none] ∧
    (manualLoop exModel () () ()).outWGrad = none ∧
    (manualLoop exModel () () ()).adapterGrads = [2] := by
  refine ⟨rfl, by decide, rfl, rfl, rfl⟩

/-! ## C3: order of the per-layer replay steps

Event-trace semantics of the replay loop (lines 369–371 driving lines
305–324): for each layer, in strictly reverse order, the loop first executes
`restore_rng_state` (line 370) and then calls `backprop_w_lora` (line 371),
which loads the module's parameters (line 307), disables their gradient flags
(lines 311–312), loads the cached input (line 314), marks it as a gradient
root if it is floating point (lines 318–319), recomputes the forward
(line 321), backpropagates (line 322) and captures the input gradient
(line 324). -/

inductive ReplayEv where
  | restoreRng : ℕ → ReplayEv
  | loadParams : ℕ → ReplayEv
  | disableGrad : ℕ → ReplayEv
  | loadInput : ℕ → ReplayEv
  | markRoot : ℕ → ReplayEv
  | recompute : ℕ → ReplayEv
  | backward : ℕ → ReplayEv
  | captureGrad : ℕ → ReplayEv
deriving DecidableEq

/-- Events of one `backprop_w_lora` call on layer `i` (source lines 305–324),
in source order. -/
def backpropWLoraTrace (isFloat : Bool) (i : ℕ) : List ReplayEv :=
  [ReplayEv.loadParams i, ReplayEv.disableGrad i, ReplayEv.loadInput i] ++
    (if isFloat then [ReplayEv.markRoot i] else []) ++
    [ReplayEv.recompute i, ReplayEv.backward i, ReplayEv.captureGrad i]

/-- Events of the whole replay loop over `n` layers (source lines 369–371):
layers in strictly reverse order, each step restoring the rng state first and
then running `backprop_w_lora`. -/
def replayTrace (isFloat : Bool) (n : ℕ) : List ReplayEv :=
  (((List.range n).reverse).map
    (fun i => ReplayEv.restoreRng i :: backpropWLoraTrace isFloat i)).flatten

/-- Per-layer step order as claim C3 states it: load parameters, disable
their gradients, load the cached input and mark it, and only then restore the
rng state before recomputing. -/
def claimedStepTrace (isFloat : Bool) (i : ℕ) : List ReplayEv :=
  [ReplayEv.loadParams i, ReplayEv.disableGrad i, ReplayEv.loadInput i] ++
    (if isFloat then [ReplayEv.markRoot i] else []) ++
    [ReplayEv.restoreRng i, ReplayEv.recompute i, ReplayEv.backward i,
     ReplayEv.captureGrad i]

/-- Replay-loop order as claim C3 states it. -/
def claimedReplayTrace (isFloat : Bool) (n : ℕ) : List ReplayEv :=
  (((List.range n).reverse).map (claimedStepTrace isFloat)).flatten

/-- Counterexample to C3 as stated: already for a single layer the actual
trace restores the rng state before loading the layer's parameters, not
after loading the cached input. -/
theorem replay_order_counterexample :
    replayTrace true 1 ≠ claimedReplayTrace true 1 := by decide

/-- C3 as amended: the replay processes the layers in strictly reverse order
and, within each layer's step, executes exactly — and in this order — the rng
restore, then the parameter load, then the gradient disable, then the cached
input load with its root marking (activations are floating point), then the
recomputation, the backpropagation and the input-gradient capture.  Only the
position of the rng restore differs from the claim (it comes first, which
still satisfies the essential constraint of restoring randomness before the
recomputation). -/
theorem replay_order_actual (n : ℕ) :
    replayTrace true n =
      (((List.range n).reverse).map (fun i =>
        [ReplayEv.restoreRng i, ReplayEv.loadParams i, ReplayEv.disableGrad i,
         ReplayEv.loadInput i, ReplayEv.markRoot i, ReplayEv.recompute i,
         ReplayEv.backward i, ReplayEv.captureGrad i])).flatten := by
  unfold replayTrace backpropWLoraTrace
  congr 1

/-! ## C9: error propagation out of the replay loop

The blackbox storage manager and randomness-state service are not part of the
excerpt; their failure modes are taken from the spec (§6): `load` may fail
with `StorageMissing`/`StorageCorrupt`, `load_cached_input` with `CacheMiss`,
`restore_state` with `StateFormatMismatch`.  Each collaborator is an oracle
mapping a layer index to an optional error; the replay loop body (lines
369–371, 305–324) contains no handler, so Python propagates the first raised
error out of `manual_loop`, keeping only the adapter gradients of the layers
already processed. -/

/-- Modelled from the spec: first failure, if any, hit by the step for layer
`i`, in execution order — the rng restore (line 370), then the parameter load
(line 307), then the cached-input load (line 314). -/
def stepErr {E : Type} (rngErr loadErr inputErr : ℕ → Option E) (i : ℕ) :
    Option E :=
  match rngErr i with
  | some e => some e
  | none =>
    match loadErr i with
    | some e => some e
    | none => inputErr i

/-- The replay loop with fallible collaborators: process the given layer
indices in order, accumulating `(layer, adapter-gradient)` pairs; on the
first failing step the loop aborts, returning the error and exactly the
gradients produced so far (side effects before an uncaught Python exception
persist). -/
def replayExc {E A : Type} (rngErr loadErr inputErr : ℕ → Option E)
    (adG : ℕ → A) : List ℕ → List (ℕ × A) → List (ℕ × A) × Option E
  | [], acc => (acc, none)
  | i :: rest, acc =>
    match stepErr rngErr loadErr inputErr i with
    | some e => (acc, some e)
    | none => replayExc rngErr loadErr inputErr adG rest ((i, adG i) :: acc)

/-- The replay loop of `manual_loop` runs over the layer indices in reverse
order, starting with no gradients produced. -/
def manualReplayRun {E A : Type} (rngErr loadErr inputErr : ℕ → Option E)
    (adG : ℕ → A) (n : ℕ) : List (ℕ × A) × Option E :=
  replayExc rngErr loadErr inputErr adG ((List.range n).reverse) []

theorem replayExc_ok {E A : Type} (rngErr loadErr inputErr : ℕ → Option E)
    (adG : ℕ → A) :
    ∀ (L : List ℕ) (acc : List (ℕ × A)),
      (∀ i ∈ L, stepErr rngErr loadErr inputErr i = none) →
      replayExc rngErr loadErr inputErr adG L acc =
        ((L.map (fun i => (i, adG i))).reverse ++ acc, none) := by
  intro L
  induction L with
  | nil => intro acc _; simp [replayExc]
  | cons i rest ih =>
    intro acc h
    have hi : stepErr rngErr loadErr inputErr i = none := h i (by simp)
    simp only [replayExc, hi]
    rw [ih _ (fun j hj => h j (by simp [hj]))]
    simp

theorem replayExc_fail {E A : Type} (rngErr loadErr inputErr : ℕ → Option E)
    (adG : ℕ → A) :
    ∀ (L₁ : List ℕ) (j : ℕ) (L₂ : List ℕ) (e : E) (acc : List (ℕ × A)),
      (∀ i ∈ L₁, stepErr rngErr loadErr inputErr i = none) →
      stepErr rngErr loadErr inputErr j = some e →
      replayExc rngErr loadErr inputErr adG (L₁ ++ j :: L₂) acc =
        ((L₁.map (fun i => (i, adG i))).reverse ++ acc, some e) := by
  intro L₁
  induction L₁ with
  | nil =>
    intro j L₂ e acc _ hfail
    simp [replayExc, hfail]
  | cons i rest ih =>
    intro j L₂ e acc h hfail
    have hi : stepErr rngErr loadErr inputErr i = none := h i (by simp)
    simp only [List.cons_append, replayExc, hi, List.append_eq]
    rw [ih j L₂ e _ (fun x hx => h x (by simp [hx])) hfail]
    simp

/-- C9: if some step of the per-layer replay fails — any parameter load,
cached-input load or rng restore, in that check order per step — then the
error propagates out of `manual_loop` unhandled (nothing in the loop catches
it or substitutes a default), and the adapter gradients of the failed layer
and of every layer scheduled after it (all earlier layers of the network) are
never produced: the output holds exactly the gradients of the layers that
were fully processed before the failure, all of which have strictly larger
indices than the failed layer. -/
theorem replay_error_propagation {E A : Type}
    (rngErr loadErr inputErr : ℕ → Option E) (adG : ℕ → A)
    (n j : ℕ) (e : E) (L₁ L₂ : List ℕ)
    (hsplit : (List.range n).reverse = L₁ ++ j :: L₂)
    (hok : ∀ i ∈ L₁, stepErr rngErr loadErr inputErr i = none)
    (hfail : stepErr rngErr loadErr inputErr j = some e) :
    (manualReplayRun rngErr loadErr inputErr adG n).2 = some e ∧
    (manualReplayRun rngErr loadErr inputErr adG n).1 =
      (L₁.map (fun i => (i, adG i))).reverse ∧
    ∀ i, i ≤ j → ∀ a, (i, a) ∉ (manualReplayRun rngErr loadErr inputErr adG n).1 := by
  have hrun : manualReplayRun rngErr loadErr inputErr adG n =
      ((L₁.map (fun i => (i, adG i))).reverse, some e) := by
    unfold manualReplayRun
    rw [hsplit, replayExc_fail rngErr loadErr inputErr adG L₁ j L₂ e [] hok hfail]
    simp
  have hgt : ∀ i ∈ L₁, j < i := by
    have hpw : ((List.range n).reverse).Pairwise (· > ·) := by
      rw [List.pairwise_reverse]
      simpa using List.pairwise_lt_range n
    rw [hsplit] at hpw
    rcases List.pairwise_append.mp hpw with ⟨_, _, hrel⟩
    intro i hi
    exact hrel i hi j (by simp)
  refine ⟨by rw [hrun], by rw [hrun], ?_⟩
  intro i hij a hmem
  rw [hrun] at hmem
  simp only [List.mem_reverse, List.mem_map] at hmem
  rcases hmem with ⟨x, hx, hxe⟩
  have : x = i := (Prod.mk.injEq _ _ _ _).mp hxe |>.1
  subst this
  exact absurd (hgt x hx) (by omega)

/-- Collaborator oracles for the C9 witness: the rng restore fails (with
error code 7) exactly at layer 0; loads never fail. -/
def exRngErr : ℕ → Option ℕ := fun i => if i = 0 then some 7 else none

/-- Collaborator oracle that never fails. -/
def exNoneErr : ℕ → Option ℕ := fun _ => none

/-- Adapter gradients for the C9 witness. -/
def exAdG : ℕ → ℕ := fun i => i + 10

/-- Witness for C9: with two layers and a rng-restore failure at layer 0, the
hypotheses hold concretely ( `[1, 0] = [1] ++ 0 :: []`, layer 1's step
succeeds, layer 0's fails with error 7 ), the error propagates out, and only
layer 1's adapter gradient was produced. -/
theorem replay_error_propagation_witness :
    (List.range 2).reverse = [1] ++ 0 :: [] ∧
    stepErr exRngErr exNoneErr exNoneErr 0 = some 7 ∧
    (manualReplayRun exRngErr exNoneErr exNoneErr exAdG 2).2 = some 7 ∧
    (manualReplayRun exRngErr exNoneErr exNoneErr exAdG 2).1 = [(1, 11)] :=
  ⟨by decide, by decide,
   (replay_error_propagation exRngErr exNoneErr exNoneErr exAdG 2 0 7 [1] []
      (by decide) (by decide) (by decide)).1,
   ((replay_error_propagation exRngErr exNoneErr exNoneErr exAdG 2 0 7 [1] []
      (by decide) (by decide) (by decide)).2.1).trans (by decide)⟩

/-! ## C10: the two branches of `Transformer.forward` (lines 281–303)

Positional refinement of the forward pipeline: activations carry their batch
and sequence axes, the final norm and the output projection act per position
(both are per-position maps in the source), and the sequence length is
`sl + 1` (a forward pass needs at least one token).  `lossV` is the engine's
cross-entropy applied to the full logits tensor and the targets. -/

inductive LogitsOut (bsz sl : ℕ) (LR : Type) where
  | lastOnly : (Fin bsz → Fin 1 → LR) → LogitsOut bsz sl LR
  | full : (Fin bsz → Fin (sl + 1) → LR) → LogitsOut bsz sl LR

/-- Source `Transformer.forward`: embed, dropout, layer sweep, final norm;
then, if targets are given, project every position and set `last_loss` to the
computed loss; otherwise project only the last position — `h[:, [-1], :]`
keeps the time dimension with length 1 — and set `last_loss` to `None`. -/
def transformerForward {R Feat LR G WL NW OW Tok T S : Type} {bsz sl : ℕ}
    (layers : List (DiffFn R (Fin bsz → Fin (sl + 1) → Feat) G WL))
    (dropFwd : R → (Fin bsz → Fin (sl + 1) → Feat) →
      (Fin bsz → Fin (sl + 1) → Feat) × R)
    (normPt : NW → Feat → Feat) (normW : NW)
    (outPt : OW → Feat → LR) (outW : OW)
    (lossV : T → (Fin bsz → Fin (sl + 1) → LR) → S)
    (embed : Tok → Fin bsz → Fin (sl + 1) → Feat) (tok : Tok)
    (targets : Option T) (r0 : R) : LogitsOut bsz sl LR × Option S :=
  let s0 := dropFwd r0 (embed tok)
  let sw := forwardSweep layers s0.2 s0.1
  let h := fun b s => normPt normW (sw.2.1 b s)
  match targets with
  | some t =>
    let logits := fun b s => outPt outW (h b s)
    (LogitsOut.full logits, some (lossV t logits))
  | none =>
    (LogitsOut.lastOnly (fun b _ => outPt outW (h b (Fin.last sl))), none)

/-- C10: with `targets = None`, `forward` returns logits computed only for
the last sequence position — the time dimension is preserved with length 1 —
and sets `last_loss` to `None`; with targets it returns logits for every
position and sets `last_loss` to the computed loss.  The inference-path
logits agree with the training-path logits at the last position. -/
theorem forward_branch_behavior {R Feat LR G WL NW OW Tok T S : Type}
    {bsz sl : ℕ}
    (layers : List (DiffFn R (Fin bsz → Fin (sl + 1) → Feat) G WL))
    (dropFwd : R → (Fin bsz → Fin (sl + 1) → Feat) →
      (Fin bsz → Fin (sl + 1) → Feat) × R)
    (normPt : NW → Feat → Feat) (normW : NW)
    (outPt : OW → Feat → LR) (outW : OW)
    (lossV : T → (Fin bsz → Fin (sl + 1) → LR) → S)
    (embed : Tok → Fin bsz → Fin (sl + 1) → Feat) (tok : Tok)
    (t : T) (r0 : R) :
    ∃ (f : Fin bsz → Fin 1 → LR) (g : Fin bsz → Fin (sl + 1) → LR),
      transformerForward layers dropFwd normPt normW outPt outW lossV embed
          tok none r0 = (LogitsOut.lastOnly f, none) ∧
      transformerForward layers dropFwd normPt normW outPt outW lossV embed
          tok (some t) r0 = (LogitsOut.full g, some (lossV t g)) ∧
      ∀ (b : Fin bsz) (i : Fin 1), f b i = g b (Fin.last sl) := by
  refine ⟨_, _, rfl, rfl, ?_⟩
  intro b i
  rfl

end SlowLlama
